import Mathlib

/-!
# Verification of the `mage` dotfiles utility

Shallow embedding of the core of the `mage` repository (origin
classification, repository materialization, manifest reading, link and
unlink engines, error aggregation) together with theorems settling the
frozen claims about its specification.

Modelling conventions:

* Strings are Lean `String`s; character-level reasoning is done on
  `String.data : List Char`.
* The filesystem is external state.  For functions that only test paths
  (classification, `clone_repo`) it is modelled by a record of boolean
  predicates (`FsEnv`).  For the link/unlink engines, which mutate the
  filesystem, it is modelled explicitly as an association list from
  component paths to nodes (`Fs`), and every mutating operation is
  recorded in a trace so that claims about "number of filesystem
  mutations" can be stated.
* Subprocesses (`git clone`, `sh -c`) are external collaborators; they are
  passed in as explicit parameters (`SpawnOutcome`, an installed-check
  predicate).
* Rust `Result`/`anyhow::Error` is `Except String`; a Rust panic
  (`expect`/`unwrap` failure) is the `RunResult.panicked` constructor,
  kept distinct from the `Result`-based error channel.
-/

/-! ## Character classes of the repository-URL regexes (src/dotfiles.rs)

The source validates repository URLs with the `regex` crate:

* `git@github.com:[A-z-\d]+\/[A-z-\d_]+.git`
* `https://github.com/[A-z-\d]+\/[A-z-\d_]+.git`
* shorthand `[A-z-\d]+\/[A-z-\d_]+`

`[A-z-\d]` is the ASCII range `A`..`z` (which includes `[ \ ] ^ _` and
the backquote), the literal `-`, and `\d` (modelled as ASCII digits; the
claims only involve ASCII inputs).  The unescaped `.` of `github.com`
and of `.git` matches any character except a newline.

Each pattern is used as `re.find(s).is_some_and(|m| m.len() == s.len())`,
i.e. the leftmost match must have the length of the whole string, which
holds exactly when the pattern matches the entire string: the regexes
are concatenations of literals and greedy `cls+` pieces whose following
literal `/` is outside the class, so the match starting at position 0 is
unique up to the final backtracking of the second `cls+` against
`.git`, where greedy (leftmost-first) semantics picks the longest
match; hence the leftmost match has full length iff a full-string
decomposition exists.  The definitions below decide exactly that
full-string decomposition.
-/

deriving instance DecidableEq for Except

def cls1 (c : Char) : Bool :=
  (decide ('A' ≤ c) && decide (c ≤ 'z')) || c == '-' || c.isDigit

def cls2 (c : Char) : Bool :=
  cls1 c || c == '_'

def isAnyChar (c : Char) : Bool :=
  c != '\n'

/-- Consume an exact literal; `none` if the input does not start with it. -/
def dropLit : List Char → List Char → Option (List Char)
  | [], xs => some xs
  | _ :: _, [] => none
  | l :: ls, x :: xs => if x = l then dropLit ls xs else none

/-- Consume one arbitrary (non-newline) character, the regex `.`. -/
def dropAny : List Char → Option (List Char)
  | [] => none
  | c :: xs => if isAnyChar c then some xs else none

/-- Decide `[A-z-\d_]+ . g i t` against the whole of `xs`:
`xs = b ++ [c] ++ "git"` with `b` nonempty over `cls2` and `c` arbitrary. -/
def gitTail (xs : List Char) : Bool :=
  decide (5 ≤ xs.length) &&
  (xs.take (xs.length - 4)).all cls2 &&
  (match xs.drop (xs.length - 4) with
   | c :: rest => isAnyChar c && decide (rest = ['g', 'i', 't'])
   | [] => false)

/-- Decide `[A-z-\d]+ / [A-z-\d_]+ . g i t` against the whole of `xs`.
Since `/` is not in `cls1`, the first `+` necessarily consumes the maximal
run of `cls1` characters. -/
def repoTail (xs : List Char) : Bool :=
  let a := xs.takeWhile cls1
  decide (1 ≤ a.length) &&
  (match xs.drop a.length with
   | '/' :: rest => gitTail rest
   | _ => false)

/-- Whole-string match of `git@github.com:[A-z-\d]+\/[A-z-\d_]+.git`. -/
def matchesSshUrl (xs : List Char) : Bool :=
  match dropLit "git@github".data xs with
  | none => false
  | some r1 =>
    match dropAny r1 with
    | none => false
    | some r2 =>
      match dropLit "com:".data r2 with
      | none => false
      | some r3 => repoTail r3

/-- Whole-string match of `https://github.com/[A-z-\d]+\/[A-z-\d_]+.git`. -/
def matchesHttpsUrl (xs : List Char) : Bool :=
  match dropLit "https://github".data xs with
  | none => false
  | some r1 =>
    match dropAny r1 with
    | none => false
    | some r2 =>
      match dropLit "com/".data r2 with
      | none => false
      | some r3 => repoTail r3

/-- `is_valid_repo_url` (src/dotfiles.rs lines 126-135): some regex in the
vector finds a match whose length is the whole input. -/
def is_valid_repo_url (s : String) : Bool :=
  matchesSshUrl s.data || matchesHttpsUrl s.data

/-- Whole-string match of the shorthand pattern `[A-z-\d]+\/[A-z-\d_]+`. -/
def shorthandFull (xs : List Char) : Bool :=
  let a := xs.takeWhile cls1
  decide (1 ≤ a.length) &&
  (match xs.drop a.length with
   | '/' :: rest => decide (1 ≤ rest.length) && rest.all cls2
   | _ => false)

/-- The filesystem, as consulted by classification and `clone_repo`:
`is_dir` is `PathBuf::is_dir`, `pathExists` is `PathBuf::exists`. -/
structure FsEnv where
  is_dir : String → Bool
  pathExists : String → Bool

/-- `is_github_repo` (src/dotfiles.rs lines 137-151). -/
def is_github_repo (env : FsEnv) (s : String) : Bool :=
  is_valid_repo_url s || (!env.pathExists s && shorthandFull s.data)

/-- `full_repo_url` (src/dotfiles.rs lines 153-155): note the `/` after
`github.com`, exactly as in the source (`format!("git@github.com/{s}.git")`). -/
def full_repo_url (s : String) : String :=
  "git@github.com/" ++ s ++ ".git"

inductive DotfilesOrigin where
  | directory (path : String)
  | repository (url : String) (path : String)
deriving DecidableEq, Repr

/-- `DotfilesOrigin::from_str` (src/dotfiles.rs lines 100-124). -/
def DotfilesOrigin.from_str (env : FsEnv) (s : String) :
    Except String DotfilesOrigin :=
  if env.is_dir s then .ok (.directory s)
  else if is_valid_repo_url s then .ok (.repository s "~/.mage")
  else if is_github_repo env s then .ok (.repository (full_repo_url s) "~/.mage")
  else .error ("I do not how to get dotfiles with this: " ++ s)

example : is_valid_repo_url "git@github.com:test/test-repo.git" = true := by decide
example : is_valid_repo_url "https://github.com/test/test-repo.git" = true := by decide
example : is_valid_repo_url "https://github.com/a/b.git/extra" = false := by decide
example : is_valid_repo_url "git@something" = false := by decide
example : shorthandFull "test/test".data = true := by decide
example : shorthandFull "/tmp/test".data = false := by decide

/-! ## Repository materialization: `clone_repo` (src/dotfiles.rs lines 84-98)

The external `git` process is a collaborator; its behaviour is passed in as
a `SpawnOutcome`.  Rust's `Command::output()` returns `Err` only when the
process fails to start; a process that started and exited (with any
status) yields `Ok(output)` — and `clone_repo` never looks at the exit
status.  The second component of the result records whether the external
clone capability was invoked at all. -/

inductive SpawnOutcome where
  | failedToStart (msg : String)
  | exited (status : Int)
deriving DecidableEq, Repr

def clone_repo (env : FsEnv) (git : SpawnOutcome) (url path : String) :
    Except String String × Bool :=
  if env.pathExists path then
    (.error ("Target path " ++ path ++ " already exists"), false)
  else
    match git with
    | .failedToStart m => (.error m, true)
    | .exited _ => (.ok path, true)

/-! ## The manifest (TOML table, treated as a black-box parse result)

The TOML library is an external collaborator ("parse bytes into a
key-ordered string-keyed table").  We model just enough of `toml::Value`
for the claims: a top-level `Table` maps keys to items, an item is either
a sub-table or a scalar, and `Value::get` on a non-table returns `None`.
`Value::as_str` succeeds only on strings; `Value::to_string` renders the
TOML serialization (strings come out quoted). -/

inductive TomlVal where
  | vstr (s : String)
  | vint (n : Int)
  | vbool (b : Bool)
deriving DecidableEq, Repr

inductive TomlItem where
  | sub (kvs : List (String × TomlVal))
  | plain (v : TomlVal)
deriving DecidableEq, Repr

abbrev Table := List (String × TomlItem)

def lookupKey {α : Type} (k : String) : List (String × α) → Option α
  | [] => none
  | (k2, v) :: rest => if k2 = k then some v else lookupKey k rest

def containsKey (k : String) (t : Table) : Bool :=
  (lookupKey k t).isSome

def keysOf (t : Table) : List String :=
  t.map (fun kv => kv.1)

/-- `Value::get` on the value stored for a program: succeeds only when the
value is a table. -/
def itemGet (item : TomlItem) (k : String) : Option TomlVal :=
  match item with
  | .sub kvs => lookupKey k kvs
  | .plain _ => none

/-- `Value::as_str`. -/
def asStr : TomlVal → Option String
  | .vstr s => some s
  | _ => none

/-- `Value::to_string` (TOML serialization; strings are quoted). -/
def tomlDisplay : TomlVal → String
  | .vstr s => "\"" ++ s ++ "\""
  | .vint n => toString n
  | .vbool b => toString b

/-! ## Path expansion: `get_full_path` (src/util.rs lines 22-37)

`PathBuf::starts_with("~")` is component-wise: the first component must be
exactly `~`.  The loop pushes every component other than `~` onto the home
directory.  Paths stay `String`s; components are split on `/`. -/

def splitSlash : List Char → List (List Char)
  | [] => [[]]
  | c :: rest =>
    if c = '/' then [] :: splitSlash rest
    else
      match splitSlash rest with
      | [] => [[c]]
      | h :: t => (c :: h) :: t

/-- First path component is exactly `~`. -/
def tildeFirst : List Char → Bool
  | ['~'] => true
  | '~' :: '/' :: _ => true
  | _ => false

def get_full_path (home : String) (s : String) : String :=
  if tildeFirst s.data then
    let comps := (splitSlash s.data).filter (fun c => c ≠ ['~'] ∧ c ≠ [])
    String.mk (comps.foldl (fun acc c => acc ++ '/' :: c) home.data)
  else s

example : get_full_path "/home/u" "~/test" = "/home/u/test" := by decide
example : get_full_path "/home/u" "/tmp/test" = "/tmp/test" := by decide

/-! ## Reading the dotfiles directory: `read_dotfiles` (src/dotfiles.rs lines 162-198)

A directory entry is its file name, its path, and — since the TOML parser
is a black box — the table its contents would parse to (consulted only
when the file name starts with `magefile`).  `ReadDir` is the entries in
directory-listing order. -/

structure RawEntry where
  fileName : String
  path : String
  parsed : Except String Table
deriving Repr

inductive DotfilesEntry where
  | magefile (t : Table)
  | configFileOrDir (name : String) (path : String)
deriving Repr

def startsWithLit : List Char → List Char → Bool
  | [], _ => true
  | _ :: _, [] => false
  | l :: ls, x :: xs => x == l && startsWithLit ls xs

/-- `file_name().starts_with("magefile")`. -/
def mageName (e : RawEntry) : Bool :=
  startsWithLit "magefile".data e.fileName.data

/-- `TryFrom<DirEntry> for DotfilesEntry` (src/dotfiles.rs lines 34-59).
File names are modelled as `String` (always valid UTF-8, so the
`to_str().expect(..)` cannot fire); the key of a config entry is its file
name. -/
def entryToDotfiles (e : RawEntry) : Except String DotfilesEntry :=
  if mageName e then
    e.parsed.map .magefile
  else
    .ok (.configFileOrDir e.fileName e.path)

/-- The entry-processing loop of `read_dotfiles`: each parsed magefile
overwrites `mage_config`; config entries are pushed in listing order. -/
def processEntries : List RawEntry → Option Table → List (String × String) →
    Except String (Option Table × List (String × String))
  | [], cfg, progs => .ok (cfg, progs)
  | e :: rest, cfg, progs =>
    match entryToDotfiles e with
    | .error m => .error m
    | .ok (.magefile t) => processEntries rest (some t) progs
    | .ok (.configFileOrDir n p) => processEntries rest cfg (progs ++ [(n, p)])

/-- `ProgramOptions` as constructed by `TryFrom<(&Table, String, PathBuf)>`
(src/commands/link/init.rs lines 19-45). -/
structure ProgramOptions where
  name : String
  path : String
  target_path : String
  is_installed_cmd : Option String
deriving DecidableEq, Repr

/-- The result of running Rust code that may also panic: `ok`/`err` are the
`Result` channel, `panicked` is an `expect`/`unwrap` failure outside it. -/
inductive RunResult (α : Type) where
  | ok (a : α)
  | err (msg : String)
  | panicked (msg : String)
deriving DecidableEq, Repr

/-- `TryFrom<(&Table, String, PathBuf)> for ProgramOptions`
(src/commands/link/init.rs lines 19-45; the variant in
src/commands/setup/init.rs lines 73-99 differs only in using `unwrap`
rather than `expect`).  The `target_path` value is converted with
`as_str().expect("should be able to convert value to str")` *inside* the
`map` on the `Option`: a present but non-string value panics before the
`context(...)` error for a missing key can apply. -/
def tryFromTable (home : String) (t : Table) (name : String) (path : String) :
    RunResult ProgramOptions :=
  match lookupKey name t with
  | none => .err ("find " ++ name ++ " from magefile")
  | some item =>
    match itemGet item "target_path" with
    | none => .err (name ++ " missing key: target_path")
    | some v =>
      match asStr v with
      | none => .panicked "should be able to convert value to str"
      | some s =>
        .ok { name := name, path := path,
              target_path := get_full_path home s,
              is_installed_cmd := (itemGet item "is_installed_cmd").map tomlDisplay }

def mapProgs (home : String) (t : Table) :
    List (String × String) → RunResult (List ProgramOptions)
  | [] => .ok []
  | (n, p) :: rest =>
    match tryFromTable home t n p with
    | .ok prog =>
      match mapProgs home t rest with
      | .ok l => .ok (prog :: l)
      | .err m => .err m
      | .panicked m => .panicked m
    | .err m => .err m
    | .panicked m => .panicked m

/-- `read_dotfiles` (src/dotfiles.rs lines 162-198). -/
def read_dotfiles (home : String) (entries : List RawEntry) :
    RunResult (List ProgramOptions) :=
  match processEntries entries none [] with
  | .error m => .err m
  | .ok (none, _) => .err "magefile not found"
  | .ok (some cfg, progs) =>
    mapProgs home cfg (progs.filter (fun np => containsKey np.1 cfg))

/-! ## Explicit filesystem state for the link and unlink engines

Paths are component lists (`PathC`); the filesystem is an association list
from paths to nodes (first match wins, new entries are prepended or, for
`create_dir_all`, appended — the paths touched never collide).

`Path::exists()` follows symbolic links: a dangling symlink does not
"exist".  Resolution is fuelled with `fs.length + 1`, enough to follow
any acyclic chain of the finitely many symlink entries; a cycle exhausts
the fuel and yields `false` (as the real syscall errors with `ELOOP`,
which `exists()` reports as `false`).  `Path::is_symlink()` does not
follow the link. -/

abbrev PathC := List String

inductive FsNode where
  | file
  | dir
  | symlinkTo (target : PathC)
deriving DecidableEq, Repr

abbrev Fs := List (PathC × FsNode)

def lookupFs (fs : Fs) (p : PathC) : Option FsNode :=
  match fs with
  | [] => none
  | (q, n) :: rest => if q = p then some n else lookupFs rest p

def resolveExists (fs : Fs) : Nat → PathC → Bool
  | 0, _ => false
  | fuel + 1, p =>
    match lookupFs fs p with
    | none => false
    | some .file => true
    | some .dir => true
    | some (.symlinkTo q) => resolveExists fs fuel q

/-- `Path::exists()`. -/
def fsExists (fs : Fs) (p : PathC) : Bool :=
  resolveExists fs (fs.length + 1) p

/-- `Path::is_symlink()`. -/
def fsIsSymlink (fs : Fs) (p : PathC) : Bool :=
  match lookupFs fs p with
  | some (.symlinkTo _) => true
  | _ => false

/-- `Path::parent()`: `None` for the root, otherwise drop the last component. -/
def parentOf (p : PathC) : Option PathC :=
  match p with
  | [] => none
  | _ :: _ => some p.dropLast

/-- Nonempty prefixes of a path, shortest first. -/
def prefixesOf (p : PathC) : List PathC :=
  (List.range p.length).map (fun i => p.take (i + 1))

/-- `fs::create_dir_all`: create every missing ancestor and the directory
itself.  Modelled as always succeeding. -/
def mkdirAll (fs : Fs) (p : PathC) : Fs :=
  (prefixesOf p).foldl
    (fun acc q => if (lookupFs acc q).isSome then acc else acc ++ [(q, .dir)]) fs

/-- One recorded filesystem write. -/
inductive FsMutation where
  | mkdirAll (p : PathC)
  | newSymlink (source target : PathC)
  | removeAll (p : PathC)
deriving DecidableEq, Repr

/-- The outcome distinguished by the progress-bar messages of
`Configure::configure`: "already configured" versus "configured", the
latter with the result of the optional installed-check. -/
inductive LinkOutcome where
  | alreadyLinked
  | linked (installed : Bool)
deriving DecidableEq, Repr

/-- `ProgramOptions` as consumed by the link engine, with paths as
component lists. -/
structure ProgramOptionsFs where
  name : String
  path : PathC
  target_path : PathC
  is_installed_cmd : Option String
deriving DecidableEq, Repr

/-- `Configure::configure` for one program (src/configure.rs lines 26-52;
the variant in src/commands/link/configure.rs lines 29-52 is identical up
to returning `()` instead of the outcome).  `check` is the injected
`is_installed` shell capability.  Returns the outcome, the new filesystem
and the trace of filesystem writes performed. -/
def configure_program (check : String → Bool) (prog : ProgramOptionsFs)
    (fs : Fs) : Except String LinkOutcome × Fs × List FsMutation :=
  if fsExists fs prog.target_path then
    (.ok .alreadyLinked, fs, [])
  else
    match parentOf prog.target_path with
    | none => (.error "get parent path", fs, [])
    | some par =>
      let st :=
        if fsExists fs par then (fs, ([] : List FsMutation))
        else (mkdirAll fs par, [FsMutation.mkdirAll par])
      match lookupFs st.1 prog.target_path with
      | some _ => (.error "symlink: File exists", st.1, st.2)
      | none =>
        let fs2 := (prog.target_path, FsNode.symlinkTo prog.path) :: st.1
        let outcome :=
          match prog.is_installed_cmd with
          | some cmd => LinkOutcome.linked (check cmd)
          | none => LinkOutcome.linked true
        (.ok outcome, fs2, st.2 ++ [FsMutation.newSymlink prog.path prog.target_path])

/-- The outcome of `Undo::undo` distinguished by its printed messages:
"cleaned" versus "is not a symlink or it doesn't exists, skipping". -/
inductive UnlinkOutcome where
  | removed
  | skipped
deriving DecidableEq, Repr

/-- `fs::remove_dir_all(target)`: drop the entry and everything below it. -/
def removeAllFs (fs : Fs) (p : PathC) : Fs :=
  fs.filter (fun ent => !(ent.1.take p.length = p : Bool))

/-- `Undo::undo` for one program (src/commands/clean.rs lines 33-56): only
remove the target if it exists *and* is a symlink; otherwise skip with a
success result and no mutation. -/
def undo_program (prog : ProgramOptionsFs) (fs : Fs) :
    Except String UnlinkOutcome × Fs × List FsMutation :=
  if fsExists fs prog.target_path && fsIsSymlink fs prog.target_path then
    (.ok .removed, removeAllFs fs prog.target_path, [FsMutation.removeAll prog.target_path])
  else
    (.ok .skipped, fs, [])

/-! ## The `link` command: batch configuration and error aggregation

`configure` (src/commands/link/configure.rs lines 71-96) maps every
program through `Configure::configure` with rayon's `into_par_iter().map(..)
.collect::<Vec<Result<()>>>()`; `collect` on an indexed parallel iterator
preserves input order, and each element's error is captured in its own
`Result` slot.  The per-program result is abstracted as a function from
the program to its `Result`, covering any interleaving of the independent
descriptors.  `show_errors` (src/commands/link.rs lines 15-40) renders the
failures; `execute` (lines 6-13) prints them and returns `Ok(())`. -/

def configureAll (outcome : ProgramOptionsFs → Except String Unit)
    (progs : List ProgramOptionsFs) : List (Except String Unit) :=
  progs.map outcome

/-- The `errors` value computed by `show_errors`: each result mapped to its
message (or the empty string), then `reduce`d, skipping empty strings. -/
def showErrorsReduce (results : List (Except String Unit)) : Option String :=
  match results.map (fun r => match r with | .error e => e | .ok _ => "") with
  | [] => none
  | h :: t => some (t.foldl (fun acc e => if e = "" then acc else acc ++ "\n" ++ e) h)

/-- What `show_errors` prints to stderr: nothing when there were no
failures (`None` reduce result or an all-empty reduction). -/
def printedErrors (results : List (Except String Unit)) : Option String :=
  match showErrorsReduce results with
  | none => none
  | some s => if s = "" then none else some s

/-- `execute` for the `link` command (src/commands/link.rs lines 6-13),
given the result of `init::run` and the per-program outcomes.  Returns the
command result, carrying the printed diagnostic summary on success. -/
def link_execute (initRes : Except String (List ProgramOptionsFs))
    (outcome : ProgramOptionsFs → Except String Unit) :
    Except String (Option String) :=
  match initRes with
  | .error e => .error e
  | .ok progs => .ok (printedErrors (configureAll outcome progs))

/-! ## Derived descriptions of `read_dotfiles` used by the order theorems -/

/-- The config pairs pushed by the entry loop, in directory-listing order. -/
def configPairs (l : List RawEntry) : List (String × String) :=
  (l.filter (fun e => !mageName e)).map (fun e => (e.fileName, e.path))

/-- The table of the *last* magefile-named entry that parses: each parsed
magefile overwrites `mage_config` in the entry loop. -/
def lastMagefileTable : List RawEntry → Option Table
  | [] => none
  | e :: rest =>
    match lastMagefileTable rest with
    | some t => some t
    | none =>
      if mageName e then
        match e.parsed with
        | .ok t => some t
        | .error _ => none
      else none

/-! ## Concrete inputs used by counterexamples and witnesses -/

/-- A filesystem on which nothing exists. -/
def env0 : FsEnv := ⟨fun _ => false, fun _ => false⟩

/-- A filesystem on which exactly `/tmp/mage` exists. -/
def envD : FsEnv := ⟨fun _ => false, fun p => p == "/tmp/mage"⟩

def w7fs : Fs := [(["tmp", "example.config"], FsNode.file)]

def w7prog : ProgramOptionsFs :=
  ⟨"example.config", ["dot", "example.config"], ["tmp", "example.config"], none⟩

/-- Descriptor whose origin does not exist and whose target parent is
missing. -/
def c6prog : ProgramOptionsFs := ⟨"x", ["dot", "x"], ["cfg", "sub", "x"], none⟩

def w6fs : Fs := [(["dot", "x"], FsNode.file), (["cfg"], FsNode.dir)]

def w6prog : ProgramOptionsFs := ⟨"x", ["dot", "x"], ["cfg", "x"], none⟩

def w8prog : ProgramOptionsFs := ⟨"a", ["dot", "a"], ["tmp", "a"], none⟩

def tbl3 : Table :=
  [("a.conf", .sub [("target_path", .vstr "/t/a")]),
   ("b.conf", .sub [("target_path", .vstr "/t/b")])]

/-- Directory listing yielding `b.conf` before `a.conf`, while the manifest
declares `a.conf` before `b.conf`. -/
def entries3 : List RawEntry :=
  [⟨"b.conf", "/d/b.conf", .error "unread"⟩,
   ⟨"a.conf", "/d/a.conf", .error "unread"⟩,
   ⟨"magefile.toml", "/d/magefile.toml", .ok tbl3⟩]

def tblM1 : Table := [("a", .sub [("target_path", .vstr "/t1")])]

def tblM2 : Table := [("a", .sub [("target_path", .vstr "/t2")])]

/-- Directory listing with two magefile-named entries, first `tblM1`, then
`tblM2`. -/
def entries4 : List RawEntry :=
  [⟨"magefile.toml", "/d/magefile.toml", .ok tblM1⟩,
   ⟨"magefile2.toml", "/d/magefile2.toml", .ok tblM2⟩,
   ⟨"a", "/d/a", .error "unread"⟩]

def tbl10 : Table := [("a", .sub [("target_path", .vint 5)])]

/-! # Theorems settling the claims -/

/-- Claim C1: the claim states that for `<owner>/<repo>` shorthand inputs
that are no existing path, `from_str` returns a `Repository` whose clone
URL is the colon-separated SSH form `git@github.com:<owner>/<repo>.git`.
The code instead formats `git@github.com/{s}.git` with a slash, a URL that
the code's own `is_valid_repo_url` rejects, while the colon form the claim
(and the `// Assume ssh` intent) describe is accepted by it.  Evaluated at
the failing input `"a/b"` on a filesystem where nothing exists. -/
theorem shorthand_yields_slash_url :
    DotfilesOrigin.from_str env0 "a/b" =
      .ok (.repository "git@github.com/a/b.git" "~/.mage") ∧
    "git@github.com/a/b.git" ≠ "git@github.com:a/b.git" ∧
    is_valid_repo_url "git@github.com/a/b.git" = false ∧
    is_valid_repo_url "git@github.com:a/b.git" = true := by
  decide

/-- Claim C2 (counterexample): with the destination `/tmp/mage` already on
disk, `clone_repo` does *not* return the destination as-is: it fails with
`Target path /tmp/mage already exists` (the code's own test
`does_not_clone_if_path_exists` asserts exactly this error). -/
theorem clone_existing_dest_cex :
    clone_repo envD (.exited 0) "git@github.com:a/b.git" "/tmp/mage" =
      (.error "Target path /tmp/mage already exists", false) ∧
    (clone_repo envD (.exited 0) "git@github.com:a/b.git" "/tmp/mage").1 ≠
      .ok "/tmp/mage" := by
  decide

/-- Claim C2 (amended): for every `Repository(url, destination)` whose
destination already exists on disk, materialization *fails* with a
`Target path .. already exists` error, without invoking the external clone
capability. -/
theorem clone_existing_dest_fails_without_cloning (env : FsEnv)
    (git : SpawnOutcome) (url path : String)
    (h : env.pathExists path = true) :
    clone_repo env git url path =
      (.error ("Target path " ++ path ++ " already exists"), false) := by
  unfold clone_repo
  rw [h]
  simp

/-- Witness for `clone_existing_dest_fails_without_cloning` at the concrete
destination `/tmp/mage`. -/
theorem clone_existing_dest_fails_without_cloning_witness :
    clone_repo envD (.exited 1) "git@github.com:o/r.git" "/tmp/mage" =
      (.error ("Target path " ++ "/tmp/mage" ++ " already exists"), false) :=
  clone_existing_dest_fails_without_cloning envD (.exited 1)
    "git@github.com:o/r.git" "/tmp/mage" (by decide)

/-- Claim C5: the claim states that when the clone capability is invoked
and the git process exits with non-zero status or fails to start,
materialization fails.  The code propagates a failure to start (second
conjunct), but `Command::output()?` discards the exit status: with the
destination absent and git exiting with status 1, `clone_repo` *succeeds*
with `Ok(path)` (first conjunct), contradicting the claim. -/
theorem clone_ignores_exit_status :
    clone_repo env0 (.exited 1) "git@github.com:a/b.git" "/tmp/mage" =
      (.ok "/tmp/mage", true) ∧
    clone_repo env0 (.failedToStart "No such file or directory (os error 2)")
        "git@github.com:a/b.git" "/tmp/mage" =
      (.error "No such file or directory (os error 2)", true) := by
  decide

/-- Claim C7: for every descriptor whose target path exists on disk but is
not a symbolic link (a regular file or a directory), `Undo::undo` returns
the skip outcome ("is not a symlink .., skipping", a success), and performs
no mutation: the filesystem afterwards is exactly the one before, so the
file is still present and unchanged. -/
theorem undo_skips_non_symlink (prog : ProgramOptionsFs) (fs : Fs)
    (h : lookupFs fs prog.target_path = some .file ∨
         lookupFs fs prog.target_path = some .dir) :
    undo_program prog fs = (.ok .skipped, fs, []) := by
  unfold undo_program fsIsSymlink
  rcases h with h | h <;> rw [h] <;> simp

/-- Witness for `undo_skips_non_symlink`: a regular file at
`/tmp/example.config` is skipped and survives. -/
theorem undo_skips_non_symlink_witness :
    undo_program w7prog w7fs = (.ok .skipped, w7fs, []) :=
  undo_skips_non_symlink w7prog w7fs (Or.inl (by decide))

/-- Claim C10: if a manifest entry's `target_path` field is present but its
value is not a TOML string, the `ProgramOptions` conversion panics with the
`expect` message `"should be able to convert value to str"` instead of
returning an error value: the failure is outside the `Result` channel. -/
theorem target_path_non_string_panics (home : String) (t : Table)
    (name path : String) (item : TomlItem) (v : TomlVal)
    (h1 : lookupKey name t = some item)
    (h2 : itemGet item "target_path" = some v)
    (h3 : asStr v = none) :
    tryFromTable home t name path =
      .panicked "should be able to convert value to str" := by
  simp only [tryFromTable, h1, h2, h3]

/-- Witness for `target_path_non_string_panics`: `target_path = 5` in the
manifest makes the conversion panic, and `read_dotfiles` on a directory
holding that manifest and a matching config file panics as well. -/
theorem target_path_non_string_panics_witness :
    tryFromTable "/h" tbl10 "a" "/d/a" =
      .panicked "should be able to convert value to str" ∧
    read_dotfiles "/h"
        [⟨"magefile.toml", "/d/magefile.toml", .ok tbl10⟩, ⟨"a", "/d/a", .error "unread"⟩] =
      .panicked "should be able to convert value to str" :=
  ⟨target_path_non_string_panics "/h" tbl10 "a" "/d/a"
      (.sub [("target_path", .vint 5)]) (.vint 5) rfl rfl rfl,
   by decide⟩

/-- Claim C3 (counterexample): a directory listed as `b.conf`, `a.conf`,
`magefile.toml`, with the manifest declaring keys in the order
`a.conf`, `b.conf`, expands to descriptors in directory-listing order
`b.conf`, `a.conf` — not in the manifest's stored key order. -/
theorem expansion_order_cex :
    read_dotfiles "/home/u" entries3 =
      .ok [⟨"b.conf", "/d/b.conf", "/t/b", none⟩,
           ⟨"a.conf", "/d/a.conf", "/t/a", none⟩] ∧
    keysOf tbl3 = ["a.conf", "b.conf"] ∧
    ([⟨"b.conf", "/d/b.conf", "/t/b", none⟩,
      ⟨"a.conf", "/d/a.conf", "/t/a", none⟩] : List ProgramOptions).map
        (fun pr => pr.name) ≠ keysOf tbl3 := by
  decide

/-- Claim C4 (counterexample): with two magefile-named entries, the first
parsing to `tblM1` (`target_path = "/t1"`), the second to `tblM2`
(`target_path = "/t2"`), the entry loop keeps `tblM2` — the *last* match —
and `read_dotfiles` resolves against it, producing `/t2` and not the first
match's `/t1`. -/
theorem first_magefile_wins_cex :
    processEntries entries4 none [] = .ok (some tblM2, [("a", "/d/a")]) ∧
    read_dotfiles "/h" entries4 = .ok [⟨"a", "/d/a", "/t2", none⟩] ∧
    tblM2 ≠ tblM1 := by
  decide

/-- The `reduce` step of `show_errors` leaves the accumulator unchanged
when every remaining message is empty. -/
theorem foldl_skip_empty (t : List String) (acc : String)
    (h : ∀ x ∈ t, x = "") :
    t.foldl (fun acc e => if e = "" then acc else acc ++ "\n" ++ e) acc = acc := by
  induction t generalizing acc with
  | nil => rfl
  | cons a t ih =>
    have ha : a = "" := h a (by simp)
    simp only [List.foldl_cons, ha, if_pos rfl]
    exact ih acc (fun x hx => h x (by simp [hx]))

/-- Claim C8: for every batch of descriptors and any per-descriptor
results, the `link` command (1) still returns overall success — no
per-descriptor failure becomes the command's error, (2) keeps one result
slot per descriptor — no failure aborts processing of siblings, and
(3) prints no diagnostic summary when there are zero failures. -/
theorem link_failures_never_abort (progs : List ProgramOptionsFs)
    (outcome : ProgramOptionsFs → Except String Unit) :
    (∃ o, link_execute (.ok progs) outcome = .ok o) ∧
    (configureAll outcome progs).length = progs.length ∧
    ((∀ p ∈ progs, outcome p = .ok ()) →
      link_execute (.ok progs) outcome = .ok none) := by
  refine ⟨⟨printedErrors (configureAll outcome progs), rfl⟩, by
    simp [configureAll], ?_⟩
  intro hall
  have hmap : ∀ x ∈ (configureAll outcome progs).map
      (fun r => match r with | .error e => e | .ok _ => ""), x = "" := by
    intro x hx
    simp only [configureAll, List.map_map, List.mem_map] at hx
    obtain ⟨p, hp, hx⟩ := hx
    rw [← hx]
    simp [Function.comp, hall p hp]
  simp only [link_execute, printedErrors, showErrorsReduce]
  cases hm : (configureAll outcome progs).map
      (fun r => match r with | .error e => e | .ok _ => "") with
  | nil => rfl
  | cons h0 t0 =>
    have hh : h0 = "" := hmap h0 (by rw [hm]; simp)
    have ht : ∀ x ∈ t0, x = "" := fun x hx => hmap x (by rw [hm]; simp [hx])
    simp [hh]
    exact foldl_skip_empty t0 "" ht

/-- Witness for `link_failures_never_abort`: a singleton batch whose
descriptor succeeds yields success and no printed summary. -/
theorem link_failures_never_abort_witness :
    link_execute (.ok [w8prog]) (fun _ => .ok ()) = .ok none :=
  (link_failures_never_abort [w8prog] (fun _ => .ok ())).2.2
    (fun p _ => rfl)

/-- Claim C6 (counterexample): a descriptor whose target `cfg/sub/x` did
not previously exist, but whose origin `dot/x` does not exist either and
whose target parent is missing.  The first call yields the linked outcome
but performs *two* mutations (`create_dir_all` and the symlink); the
second call follows the dangling symlink (`Path::exists()` resolves
links), finds the target "absent", retries the symlink and errors with
`EEXIST` instead of returning `AlreadyLinked`. -/
theorem configure_twice_cex :
    (configure_program (fun _ => true) c6prog []).1 = .ok (.linked true) ∧
    (configure_program (fun _ => true) c6prog []).2.2.length = 2 ∧
    (configure_program (fun _ => true) c6prog
        (configure_program (fun _ => true) c6prog []).2.1).1 =
      .error "symlink: File exists" ∧
    (configure_program (fun _ => true) c6prog
        (configure_program (fun _ => true) c6prog []).2.1).1 ≠
      .ok .alreadyLinked := by
  decide

/-- Claim C6 (amended): for every descriptor whose target has no entry on
disk, whose origin path names an existing file or directory, and whose
target's parent directory exists, calling `Configure::configure` twice in
a row yields the linked outcome then `AlreadyLinked`, performs exactly one
filesystem mutation in total (the symlink creation of the first call), and
the second call leaves the filesystem untouched and does not error. -/
theorem configure_program_idempotent (check : String → Bool)
    (prog : ProgramOptionsFs) (fs : Fs)
    (hT : lookupFs fs prog.target_path = none)
    (hO : lookupFs fs prog.path = some .file ∨ lookupFs fs prog.path = some .dir)
    (hP : ∃ par, parentOf prog.target_path = some par ∧ fsExists fs par = true) :
    ∃ b,
      configure_program check prog fs =
        (.ok (.linked b), (prog.target_path, .symlinkTo prog.path) :: fs,
         [.newSymlink prog.path prog.target_path]) ∧
      configure_program check prog
          ((prog.target_path, .symlinkTo prog.path) :: fs) =
        (.ok .alreadyLinked, (prog.target_path, .symlinkTo prog.path) :: fs, []) := by
  obtain ⟨par, hpar, hparEx⟩ := hP
  have hne : prog.target_path ≠ prog.path := by
    intro he
    rcases hO with h | h <;> rw [← he, hT] at h <;> cases h
  have hEx : fsExists fs prog.target_path = false := by
    simp [fsExists, resolveExists, hT]
  have hlook1 : lookupFs ((prog.target_path, FsNode.symlinkTo prog.path) :: fs)
      prog.target_path = some (.symlinkTo prog.path) := by
    simp [lookupFs]
  have hlook2 : lookupFs ((prog.target_path, FsNode.symlinkTo prog.path) :: fs)
      prog.path = lookupFs fs prog.path := by
    simp [lookupFs, hne]
  have hEx1 : fsExists ((prog.target_path, FsNode.symlinkTo prog.path) :: fs)
      prog.target_path = true := by
    have hlen : ((prog.target_path, FsNode.symlinkTo prog.path) :: fs).length + 1 =
        fs.length + 1 + 1 := by simp
    rw [fsExists, hlen]
    rcases hO with h | h <;> simp [resolveExists, hlook1, hlook2, h]
  refine ⟨match prog.is_installed_cmd with
          | some cmd => check cmd
          | none => true, ?_, ?_⟩
  · simp only [configure_program, hEx, hpar, hparEx, hT]
    cases hc : prog.is_installed_cmd <;> simp [hc, hT]
  · simp [configure_program, hEx1]

/-- Witness for `configure_program_idempotent`: origin file `dot/x`,
existing parent `cfg`, fresh target `cfg/x`. -/
theorem configure_program_idempotent_witness :
    ∃ b,
      configure_program (fun _ => true) w6prog w6fs =
        (.ok (.linked b), (w6prog.target_path, .symlinkTo w6prog.path) :: w6fs,
         [.newSymlink w6prog.path w6prog.target_path]) ∧
      configure_program (fun _ => true) w6prog
          ((w6prog.target_path, .symlinkTo w6prog.path) :: w6fs) =
        (.ok .alreadyLinked, (w6prog.target_path, .symlinkTo w6prog.path) :: w6fs, []) :=
  configure_program_idempotent (fun _ => true) w6prog w6fs (by decide)
    (Or.inl (by decide)) ⟨["cfg"], by decide, by decide⟩

/-- The entry loop appends exactly the non-magefile entries, in
directory-listing order. -/
theorem processEntries_progs (l : List RawEntry) (cfg : Option Table)
    (ps : List (String × String)) (cfg2 : Option Table)
    (ps2 : List (String × String))
    (h : processEntries l cfg ps = .ok (cfg2, ps2)) :
    ps2 = ps ++ configPairs l := by
  induction l generalizing cfg ps with
  | nil =>
    simp [processEntries] at h
    simp [configPairs, h.2]
  | cons e rest ih =>
    cases hm : mageName e with
    | true =>
      cases hp : e.parsed with
      | error m => simp [processEntries, entryToDotfiles, hm, hp, Except.map] at h
      | ok t =>
        simp only [processEntries, entryToDotfiles, hm, hp, Except.map, if_pos] at h
        have := ih (some t) ps h
        simp [configPairs, List.filter_cons, hm] at this ⊢
        exact this
    | false =>
      simp only [processEntries, entryToDotfiles, hm, Bool.false_eq_true,
        if_false] at h
      have := ih cfg (ps ++ [(e.fileName, e.path)]) h
      simp [configPairs, List.filter_cons, hm] at this ⊢
      simp [this]

/-- The `mage_config` the entry loop ends with is the table of the last
magefile-named entry (each parsed magefile overwrites the previous one),
or the initial value when there is none. -/
theorem processEntries_cfg (l : List RawEntry) (cfg : Option Table)
    (ps : List (String × String)) (cfg2 : Option Table)
    (ps2 : List (String × String))
    (h : processEntries l cfg ps = .ok (cfg2, ps2)) :
    cfg2 = (match lastMagefileTable l with | some t => some t | none => cfg) := by
  induction l generalizing cfg ps with
  | nil =>
    simp [processEntries] at h
    simp [lastMagefileTable, h.1]
  | cons e rest ih =>
    cases hm : mageName e with
    | true =>
      cases hp : e.parsed with
      | error m => simp [processEntries, entryToDotfiles, hm, hp, Except.map] at h
      | ok t =>
        simp only [processEntries, entryToDotfiles, hm, hp, Except.map, if_pos] at h
        have := ih (some t) ps h
        simp only [lastMagefileTable, hm, hp, if_pos]
        cases hl : lastMagefileTable rest <;> simp [hl] at this ⊢ <;> exact this
    | false =>
      simp only [processEntries, entryToDotfiles, hm, Bool.false_eq_true,
        if_false] at h
      have := ih cfg (ps ++ [(e.fileName, e.path)]) h
      simp only [lastMagefileTable, hm, Bool.false_eq_true, if_false]
      cases hl : lastMagefileTable rest <;> simp [hl] at this ⊢ <;> exact this

/-- The `ok` branch of the `ProgramOptions` conversion keeps the manifest
key as the program name. -/
theorem tryFromTable_name (home : String) (t : Table) (n p : String)
    (prog : ProgramOptions) (h : tryFromTable home t n p = .ok prog) :
    prog.name = n := by
  unfold tryFromTable at h
  split at h
  · cases h
  · split at h
    · cases h
    · split at h
      · cases h
      · cases h
        rfl

/-- The conversion loop of `read_dotfiles` preserves the names and the
order of its input pairs. -/
theorem mapProgs_names (home : String) (t : Table) (l : List (String × String))
    (res : List ProgramOptions) (h : mapProgs home t l = .ok res) :
    res.map (fun pr => pr.name) = l.map (fun np => np.1) := by
  induction l generalizing res with
  | nil =>
    simp [mapProgs] at h
    simp [← h]
  | cons np rest ih =>
    obtain ⟨n, p⟩ := np
    simp only [mapProgs] at h
    cases h1 : tryFromTable home t n p with
    | ok prog =>
      rw [h1] at h
      cases h2 : mapProgs home t rest with
      | ok l2 =>
        rw [h2] at h
        cases h
        simp [ih l2 h2, tryFromTable_name home t n p prog h1]
      | err m => rw [h2] at h; cases h
      | panicked m => rw [h2] at h; cases h
    | err m => rw [h1] at h; cases h
    | panicked m => rw [h1] at h; cases h

/-- Filtering a mapped list is mapping the filtered list. -/
theorem filter_map_comm {α β : Type} (f : α → β) (q : β → Bool) (l : List α) :
    (l.map f).filter q = (l.filter (fun x => q (f x))).map f := by
  induction l with
  | nil => rfl
  | cons a tl ih => cases hq : q (f a) <;> simp [List.filter_cons, hq, ih]

/-- Claim C4 (amended): when a dotfiles directory contains magefile-named
entries, the manifest used is the *last* such entry in directory-listing
order — every parsed magefile overwrites `mage_config`. -/
theorem magefile_last_match_wins (entries : List RawEntry) (cfg : Option Table)
    (ps : List (String × String))
    (h : processEntries entries none [] = .ok (cfg, ps)) :
    cfg = lastMagefileTable entries := by
  have hc := processEntries_cfg entries none [] cfg ps h
  cases hl : lastMagefileTable entries <;> rw [hl] at hc <;> simp [hc]

/-- Witness for `magefile_last_match_wins` on the two-magefile listing
`entries4`: the config kept is `tblM2`, the later entry's table. -/
theorem magefile_last_match_wins_witness :
    (some tblM2 : Option Table) = lastMagefileTable entries4 :=
  magefile_last_match_wins entries4 (some tblM2) [("a", "/d/a")] (by decide)

/-- Claim C3 (amended): for every manifest, expansion produces its link
descriptors in the order the directory listing yields the corresponding
files (restricted to non-magefile entries whose name is a key of the
manifest in use) — not in the manifest's stored key order. -/
theorem read_dotfiles_listing_order (home : String) (entries : List RawEntry)
    (progs : List ProgramOptions)
    (h : read_dotfiles home entries = .ok progs) :
    ∃ t, lastMagefileTable entries = some t ∧
      progs.map (fun pr => pr.name) =
        (entries.filter (fun e => !mageName e && containsKey e.fileName t)).map
          (fun e => e.fileName) := by
  unfold read_dotfiles at h
  cases hP : processEntries entries none [] with
  | error m => rw [hP] at h; cases h
  | ok pair =>
    obtain ⟨cfg, ps⟩ := pair
    rw [hP] at h
    cases cfg with
    | none => cases h
    | some t =>
      have hcfg := processEntries_cfg entries none [] (some t) ps hP
      have hlast : lastMagefileTable entries = some t := by
        cases hl : lastMagefileTable entries <;> rw [hl] at hcfg
        · cases hcfg
        · simp at hcfg
          rw [hcfg]
      refine ⟨t, hlast, ?_⟩
      have hps := processEntries_progs entries none [] (some t) ps hP
      have hnames := mapProgs_names home t
        (ps.filter (fun np => containsKey np.1 t)) progs h
      rw [hnames, hps]
      simp only [List.nil_append, configPairs]
      rw [filter_map_comm]
      rw [List.map_map, List.filter_filter]
      have hpred : (fun (a : RawEntry) => containsKey (a.fileName, a.path).1 t && !mageName a) =
          (fun e => !mageName e && containsKey e.fileName t) := by
        funext a
        exact Bool.and_comm _ _
      rw [hpred]
      rfl

/-- Witness for `read_dotfiles_listing_order` on the listing `entries3`
(files listed `b.conf`, `a.conf`; manifest keys `a.conf`, `b.conf`). -/
theorem read_dotfiles_listing_order_witness :
    ∃ t, lastMagefileTable entries3 = some t ∧
      ([⟨"b.conf", "/d/b.conf", "/t/b", none⟩,
        ⟨"a.conf", "/d/a.conf", "/t/a", none⟩] : List ProgramOptions).map
          (fun pr => pr.name) =
        (entries3.filter (fun e => !mageName e && containsKey e.fileName t)).map
          (fun e => e.fileName) :=
  read_dotfiles_listing_order "/home/u" entries3
    [⟨"b.conf", "/d/b.conf", "/t/b", none⟩,
     ⟨"a.conf", "/d/a.conf", "/t/a", none⟩] (by decide)

/-- `dropLit` succeeds exactly on the literal prefix. -/
theorem dropLit_eq (ls : List Char) (xs ys : List Char)
    (h : dropLit ls xs = some ys) : xs = ls ++ ys := by
  induction ls generalizing xs with
  | nil => cases xs <;> simpa [dropLit] using h
  | cons l ls ih =>
    cases xs with
    | nil => cases h
    | cons x xt =>
      by_cases hx : x = l
      · subst hx
        simp only [dropLit, if_pos rfl] at h
        simp [ih xt h]
      · simp [dropLit, hx] at h

/-- `dropAny` consumes exactly one character. -/
theorem dropAny_eq (xs ys : List Char) (h : dropAny xs = some ys) :
    ∃ c, xs = c :: ys := by
  cases xs with
  | nil => cases h
  | cons c xt =>
    refine ⟨c, ?_⟩
    by_cases hc : isAnyChar c
    · simp only [dropAny, if_pos hc, Option.some.injEq] at h
      rw [h]
    · simp [dropAny, hc] at h

/-- Taking three keeps only the first summand when it is long enough. -/
theorem take_three_append (A B : List Char) (h : 3 ≤ A.length) :
    (A ++ B).take 3 = A.take 3 := by
  rw [List.take_append_eq_append_take]
  have h0 : 3 - A.length = 0 := by omega
  rw [h0]
  simp

/-- A successful `gitTail` means the tail is long enough and ends in
`git`. -/
theorem gitTail_ends_git (xs : List Char) (h : gitTail xs = true) :
    3 ≤ xs.length ∧ xs.reverse.take 3 = ['t', 'i', 'g'] := by
  unfold gitTail at h
  rw [Bool.and_eq_true, Bool.and_eq_true] at h
  obtain ⟨⟨h1, _h2⟩, h3⟩ := h
  have h1' : 5 ≤ xs.length := of_decide_eq_true h1
  cases hd : xs.drop (xs.length - 4) with
  | nil => rw [hd] at h3; cases h3
  | cons c rest =>
    rw [hd] at h3
    rw [Bool.and_eq_true] at h3
    have hrest : rest = ['g', 'i', 't'] := of_decide_eq_true h3.2
    have hx : xs = xs.take (xs.length - 4) ++ (c :: ['g', 'i', 't']) := by
      conv_lhs => rw [← List.take_append_drop (xs.length - 4) xs]
      rw [hd, hrest]
    constructor
    · omega
    · rw [hx, List.reverse_append]
      have : (c :: ['g', 'i', 't']).reverse = ['t', 'i', 'g'] ++ [c] := by
        simp
      rw [this, List.append_assoc]
      exact take_three_append ['t', 'i', 'g'] _ (by simp)

/-- A successful `repoTail` splits the input at a `/` with a `gitTail`
remainder. -/
theorem repoTail_split (xs : List Char) (h : repoTail xs = true) :
    ∃ pre rest, xs = pre ++ '/' :: rest ∧ gitTail rest = true := by
  unfold repoTail at h
  rw [Bool.and_eq_true] at h
  obtain ⟨_h1, h2⟩ := h
  cases hd : xs.drop (xs.takeWhile cls1).length with
  | nil => rw [hd] at h2; cases h2
  | cons c rest =>
    rw [hd] at h2
    split at h2
    next r heq =>
      obtain ⟨hc, hr⟩ := List.cons.inj heq
      refine ⟨xs.take (xs.takeWhile cls1).length, r, ?_, h2⟩
      conv_lhs => rw [← List.take_append_drop ((xs.takeWhile cls1).length) xs]
      rw [hd, hc, hr]
    next => cases h2

/-- Any string matching the three-piece URL chain
(`lit1`, any char, `lit2`, `repoTail`) ends in `git`. -/
theorem matches_chain_ends_git (lit1 lit2 xs : List Char)
    (h : (match dropLit lit1 xs with
          | none => false
          | some r1 =>
            match dropAny r1 with
            | none => false
            | some r2 =>
              match dropLit lit2 r2 with
              | none => false
              | some r3 => repoTail r3) = true) :
    xs.reverse.take 3 = ['t', 'i', 'g'] := by
  cases hd1 : dropLit lit1 xs with
  | none => simp [hd1] at h
  | some r1 =>
    simp only [hd1] at h
    cases hd2 : dropAny r1 with
    | none => simp [hd2] at h
    | some r2 =>
      simp only [hd2] at h
      cases hd3 : dropLit lit2 r2 with
      | none => simp [hd3] at h
      | some r3 =>
        simp only [hd3] at h
        obtain ⟨pre, rest, hsplit, hgit⟩ := repoTail_split r3 h
        obtain ⟨hlen3, hrev⟩ := gitTail_ends_git rest hgit
        obtain ⟨c, hc⟩ := dropAny_eq r1 r2 hd2
        have hxs : xs = (lit1 ++ c :: (lit2 ++ (pre ++ ['/']))) ++ rest := by
          rw [dropLit_eq lit1 xs r1 hd1, hc, dropLit_eq lit2 r2 r3 hd3, hsplit]
          simp
        rw [hxs, List.reverse_append, take_three_append _ _ (by simpa using hlen3)]
        exact hrev

/-- Any string matching the three-piece URL chain starts with `lit1`. -/
theorem matches_chain_head (lit1 lit2 xs : List Char)
    (h : (match dropLit lit1 xs with
          | none => false
          | some r1 =>
            match dropAny r1 with
            | none => false
            | some r2 =>
              match dropLit lit2 r2 with
              | none => false
              | some r3 => repoTail r3) = true) :
    ∃ ys, xs = lit1 ++ ys := by
  cases hd1 : dropLit lit1 xs with
  | none => simp [hd1] at h
  | some r1 => exact ⟨r1, dropLit_eq lit1 xs r1 hd1⟩

/-- `takeWhile` swallows a fully-satisfying prefix and stops at a failing
head. -/
theorem takeWhile_append_stop (f : Char → Bool) (p zs : List Char) (c0 : Char)
    (hp : p.all f = true) (hc : f c0 = false) :
    (p ++ c0 :: zs).takeWhile f = p := by
  induction p with
  | nil => simp [List.takeWhile_cons, hc]
  | cons a p ih =>
    rw [List.all_cons, Bool.and_eq_true] at hp
    simp [List.takeWhile_cons, hp.1, ih hp.2]

/-- The shorthand pattern cannot match a string whose first run of
class characters is followed by something other than `/`. -/
theorem shorthand_blocked (p zs : List Char) (c0 : Char)
    (hp : p.all cls1 = true) (hc : cls1 c0 = false) (hs : c0 ≠ '/') :
    shorthandFull (p ++ c0 :: zs) = false := by
  unfold shorthandFull
  rw [takeWhile_append_stop cls1 p zs c0 hp hc]
  show (decide (1 ≤ p.length) &&
      match List.drop p.length (p ++ c0 :: zs) with
      | '/' :: rest => decide (1 ≤ rest.length) && rest.all cls2
      | _ => false) = false
  rw [List.drop_left]
  have hmatch : (match c0 :: zs with
                 | '/' :: rest => decide (1 ≤ rest.length) && rest.all cls2
                 | _ => false) = false := by
    split
    next r heq =>
      obtain ⟨hc0, _⟩ := List.cons.inj heq
      exact absurd hc0 hs
    next => rfl
  rw [hmatch, Bool.and_false]

/-- Claim C9: URL-pattern classification is exact.  For every input `s`
that the full-URL validator accepts, the same input with trailing extra
text `"/extra"` is rejected by the validator *and* by the whole
classification (provided the extended string is not a directory on disk):
no partial match is accepted as a `Repository`. -/
theorem url_match_is_exact (env : FsEnv) (s : String)
    (hvalid : is_valid_repo_url s = true)
    (hdir : env.is_dir (s ++ "/extra") = false) :
    is_valid_repo_url (s ++ "/extra") = false ∧
    DotfilesOrigin.from_str env (s ++ "/extra") =
      .error ("I do not how to get dotfiles with this: " ++ (s ++ "/extra")) := by
  have hdata : (s ++ "/extra").data = s.data ++ "/extra".data :=
    String.data_append s "/extra"
  have hrev : (s ++ "/extra").data.reverse.take 3 = ['a', 'r', 't'] := by
    rw [hdata, List.reverse_append]
    have hlit : ("/extra".data : List Char).reverse = ['a', 'r', 't', 'x', 'e', '/'] := rfl
    rw [hlit]
    rfl
  have hvnot : is_valid_repo_url (s ++ "/extra") = false := by
    cases hb : is_valid_repo_url (s ++ "/extra") with
    | false => rfl
    | true =>
      unfold is_valid_repo_url at hb
      rw [Bool.or_eq_true] at hb
      have hend : (s ++ "/extra").data.reverse.take 3 = ['t', 'i', 'g'] := by
        rcases hb with hb | hb
        · exact matches_chain_ends_git "git@github".data "com:".data _ hb
        · exact matches_chain_ends_git "https://github".data "com/".data _ hb
      rw [hrev] at hend
      cases hend
  have hshort : shorthandFull (s ++ "/extra").data = false := by
    unfold is_valid_repo_url at hvalid
    rw [Bool.or_eq_true] at hvalid
    rcases hvalid with h | h
    · obtain ⟨ys, hys⟩ := matches_chain_head "git@github".data "com:".data s.data h
      have hlit : ("git@github".data : List Char) =
          ['g', 'i', 't', '@', 'g', 'i', 't', 'h', 'u', 'b'] := rfl
      have hx : (s ++ "/extra").data =
          ['g', 'i', 't'] ++ '@' :: (['g', 'i', 't', 'h', 'u', 'b'] ++ ys ++ "/extra".data) := by
        rw [hdata, hys, hlit]
        simp
      rw [hx]
      exact shorthand_blocked ['g', 'i', 't'] _ '@' (by decide) (by decide) (by decide)
    · obtain ⟨ys, hys⟩ := matches_chain_head "https://github".data "com/".data s.data h
      have hlit : ("https://github".data : List Char) =
          ['h', 't', 't', 'p', 's', ':', '/', '/', 'g', 'i', 't', 'h', 'u', 'b'] := rfl
      have hx : (s ++ "/extra").data =
          ['h', 't', 't', 'p', 's'] ++ ':' ::
            (['/', '/', 'g', 'i', 't', 'h', 'u', 'b'] ++ ys ++ "/extra".data) := by
        rw [hdata, hys, hlit]
        simp
      rw [hx]
      exact shorthand_blocked ['h', 't', 't', 'p', 's'] _ ':' (by decide) (by decide) (by decide)
  refine ⟨hvnot, ?_⟩
  have hshort2 : shorthandFull (s.data ++ ['/', 'e', 'x', 't', 'r', 'a']) = false := by
    rw [hdata] at hshort
    exact hshort
  unfold DotfilesOrigin.from_str
  rw [hdir, hvnot]
  simp [is_github_repo, hvnot, hshort2]

/-- Witness for `url_match_is_exact`: the valid URL
`https://github.com/a/b.git` extended to `https://github.com/a/b.git/extra`
is rejected by classification. -/
theorem url_match_is_exact_witness :
    is_valid_repo_url ("https://github.com/a/b.git" ++ "/extra") = false ∧
    DotfilesOrigin.from_str env0 ("https://github.com/a/b.git" ++ "/extra") =
      .error ("I do not how to get dotfiles with this: " ++
        ("https://github.com/a/b.git" ++ "/extra")) :=
  url_match_is_exact env0 "https://github.com/a/b.git" (by decide) (by decide)
